import Mathlib

open scoped List

/-!
Verification of the in-memory tabular data engine of the csv_insight
repository: the `DataTable` view engine (search filter, sort, rectangular
selection statistics, cell editing, row deletion) and the `DataComparator`
join/diff engine.

The JavaScript/TypeScript source is shallowly embedded:

* a cell value (`string | number | null`) becomes the `Value` inductive,
  with JS numbers modelled as rationals (every numeric literal the app
  parses from decimal text is an exact decimal, which `ℚ` represents
  exactly; float rounding and the `Infinity`/hex corner cases of
  `Number`/`parseFloat` are outside the scope of the claims and noted
  where the parsers below deviate);
* a row (a JS object) becomes an association list `Row`; a property read
  `row[col]` becomes `rowLookup`, returning `none` for an absent key
  (JS `undefined`);
* `Array.prototype.sort` is modelled as the stable merge sort
  `List.mergeSort` driven by the boolean reflection of the source's
  comparator.  ECMAScript guarantees a stable, comparator-consistent sort
  only for consistent comparators; the comparator in `DataTable.sortedData`
  is inconsistent on pairs of null-valued rows (it returns `1` for both
  argument orders), where the standard leaves the order
  implementation-defined, and the stable merge sort is the committed model;
* React state updates become explicit state-passing functions.
-/

/-! Kernel-evaluable rational arithmetic.  The Batteries definitions of
`Rat.add`, `Rat.sub`, `Rat.mul` and `Rat.inv` are `@[irreducible]`, which
blocks `decide`/`rfl` evaluation of concrete instances; the embedding
therefore computes through `mkRat`, with bridging lemmas identifying each
operation with the mathematical one. -/

/-- JS `a + b` on numbers. -/
def qadd (a b : ℚ) : ℚ := mkRat (a.num * b.den + b.num * a.den) (a.den * b.den)

/-- JS `a - b` on numbers. -/
def qsub (a b : ℚ) : ℚ := mkRat (a.num * b.den - b.num * a.den) (a.den * b.den)

/-- JS `a * b` on numbers. -/
def qmul (a b : ℚ) : ℚ := mkRat (a.num * b.num) (a.den * b.den)

/-- JS `a / b` on numbers (for nonzero `b`; the engine never divides by
zero). -/
def qdiv (a b : ℚ) : ℚ := Rat.divInt (a.num * b.den) (b.num * a.den)

/-- JS unary minus on numbers. -/
def qneg (a : ℚ) : ℚ := mkRat (-a.num) a.den

/-- JS `a <= b` on numbers. -/
def qleb (a b : ℚ) : Bool := !(Rat.blt b a)

/-- JS `a < b` on numbers. -/
def qltb (a b : ℚ) : Bool := Rat.blt a b

theorem rat_mul_den (a : ℚ) : (a : ℚ) * a.den = a.num := by
  have ha : ((a.den : ℚ)) ≠ 0 := by exact_mod_cast a.den_nz
  exact ((div_eq_iff ha).mp (Rat.num_div_den a)).symm

theorem qadd_eq (a b : ℚ) : qadd a b = a + b := by
  have ha : ((a.den : ℚ)) ≠ 0 := by exact_mod_cast a.den_nz
  have hb : ((b.den : ℚ)) ≠ 0 := by exact_mod_cast b.den_nz
  rw [qadd, Rat.mkRat_eq_divInt, Rat.divInt_eq_div]
  push_cast
  rw [div_eq_iff (by exact mul_ne_zero ha hb)]
  rw [← rat_mul_den a, ← rat_mul_den b]
  ring

theorem qsub_eq (a b : ℚ) : qsub a b = a - b := by
  have ha : ((a.den : ℚ)) ≠ 0 := by exact_mod_cast a.den_nz
  have hb : ((b.den : ℚ)) ≠ 0 := by exact_mod_cast b.den_nz
  rw [qsub, Rat.mkRat_eq_divInt, Rat.divInt_eq_div]
  push_cast
  rw [div_eq_iff (by exact mul_ne_zero ha hb)]
  rw [← rat_mul_den a, ← rat_mul_den b]
  ring

theorem qmul_eq (a b : ℚ) : qmul a b = a * b := by
  have ha : ((a.den : ℚ)) ≠ 0 := by exact_mod_cast a.den_nz
  have hb : ((b.den : ℚ)) ≠ 0 := by exact_mod_cast b.den_nz
  rw [qmul, Rat.mkRat_eq_divInt, Rat.divInt_eq_div]
  push_cast
  rw [div_eq_iff (by exact mul_ne_zero ha hb)]
  rw [← rat_mul_den a, ← rat_mul_den b]
  ring

theorem qdiv_eq (a b : ℚ) : qdiv a b = a / b := by
  rw [qdiv, Rat.divInt_eq_div]
  rcases eq_or_ne b 0 with rfl | hb0
  · simp
  have ha : ((a.den : ℚ)) ≠ 0 := by exact_mod_cast a.den_nz
  have hbn : ((b.num : ℚ)) ≠ 0 := by
    simpa [Rat.num_eq_zero] using hb0
  push_cast
  rw [div_eq_div_iff (by exact mul_ne_zero hbn ha) hb0]
  rw [← rat_mul_den a, ← rat_mul_den b]
  ring

theorem qneg_eq (a : ℚ) : qneg a = -a := by
  have ha : ((a.den : ℚ)) ≠ 0 := by exact_mod_cast a.den_nz
  rw [qneg, Rat.mkRat_eq_divInt, Rat.divInt_eq_div]
  push_cast
  rw [div_eq_iff ha, ← rat_mul_den a]
  ring

theorem qleb_iff (a b : ℚ) : qleb a b = true ↔ a ≤ b := by
  rw [qleb, Bool.not_eq_true']
  exact Iff.rfl

theorem qltb_iff (a b : ℚ) : qltb a b = true ↔ a < b := by
  rw [qltb]
  exact Iff.rfl

/-- A JS cell value as it occurs in a `CsvRow`: a number, a string, or
`null`.  An absent property (JS `undefined`) is modelled by `Option.none`
at the lookup level, not as a `Value`. -/
inductive Value where
  | num : ℚ → Value
  | str : String → Value
  | null : Value
deriving DecidableEq

/-- A `CsvRow`: a JS object mapping column names to values, modelled as an
association list (JS object keys are unique and iterate in insertion
order). -/
abbrev Row := List (String × Value)

/-- A row paired with its `_originalIndex`, as produced by `indexedData` in
`DataTable.tsx`. -/
abbrev IndexedRow := Row × Nat

/-- Property read `row[k]`: the first binding of key `k`, `none` when the
key is absent (JS `undefined`). -/
def rowLookup (row : Row) (k : String) : Option Value :=
  match row with
  | [] => none
  | p :: ps => if p.1 = k then some p.2 else rowLookup ps k

/-! JS primitive string operations used by the engine. -/

/-- JS whitespace test used by `String.prototype.trim` and by `Number`
(the common ASCII whitespace characters; exotic Unicode space code points
are not modelled, no claim depends on them). -/
def jsIsWs (c : Char) : Bool :=
  c == ' ' || c == '\t' || c == '\n' || c == '\r' || c.toNat == 11 || c.toNat == 12

/-- Trim JS whitespace from both ends of a character list. -/
def jsTrimList (cs : List Char) : List Char :=
  ((cs.dropWhile jsIsWs).reverse.dropWhile jsIsWs).reverse

/-- JS `String.prototype.trim`. -/
def jsTrim (s : String) : String :=
  String.mk (jsTrimList s.data)

/-- JS `String.prototype.toLowerCase`, modelled as the per-character ASCII
lowercase map (`toLowerCase` is per-character for the ASCII range the
claims exercise). -/
def jsToLower (s : String) : String :=
  String.mk (s.data.map Char.toLower)

/-- JS `a < b` on strings: lexicographic comparison of the code units. -/
def charListLtb : List Char → List Char → Bool
  | [], [] => false
  | [], _ :: _ => true
  | _ :: _, [] => false
  | c :: cs, d :: ds =>
    if c.toNat < d.toNat then true
    else if d.toNat < c.toNat then false
    else charListLtb cs ds

def jsStrLtb (a b : String) : Bool :=
  charListLtb a.data b.data

/-- JS `haystack.includes(needle)`: substring containment. -/
def jsIncludes (haystack needle : String) : Prop :=
  needle.data <:+: haystack.data

instance (s t : String) : Decidable (jsIncludes s t) :=
  List.decidableInfix t.data s.data

/-! JS numeric parsing (`Number(string)` and `parseFloat`), restricted to
finite decimal literals with optional sign, fraction and exponent.  The
`Infinity` literal and hexadecimal/binary/octal prefixes accepted by
`Number` are not modelled (no claim touches them); on its decimal domain
the model agrees with JS exactly because every decimal literal denotes an
exact rational. -/

/-- Consume a maximal run of decimal digits, returning their value, how
many there were, and the rest of the input. -/
def parseDigitsAux : List Char → Nat → Nat → Nat × Nat × List Char
  | [], acc, n => (acc, n, [])
  | c :: cs, acc, n =>
    if c.isDigit then parseDigitsAux cs (acc * 10 + (c.toNat - 48)) (n + 1)
    else (acc, n, c :: cs)

/-- Try to consume an exponent part `e`/`E` with optional sign; backtracks
(returning exponent `0` and the untouched input) when no well-formed
exponent follows, mirroring both `Number` and `parseFloat`. -/
def parseExpPart (cs : List Char) : Int × List Char :=
  match cs with
  | c :: rest =>
    if c == 'e' || c == 'E' then
      match rest with
      | '+' :: r2 =>
        let (v, n, r3) := parseDigitsAux r2 0 0
        if n = 0 then (0, cs) else ((v : Int), r3)
      | '-' :: r2 =>
        let (v, n, r3) := parseDigitsAux r2 0 0
        if n = 0 then (0, cs) else (-(v : Int), r3)
      | r2 =>
        let (v, n, r3) := parseDigitsAux r2 0 0
        if n = 0 then (0, cs) else ((v : Int), r3)
    else (0, cs)
  | [] => (0, cs)

/-- The rational denoted by a decimal literal with integral mantissa
`mant`, `fracDigits` digits after the point, and exponent `ex`. -/
def qOfDecimal (mant : Nat) (fracDigits : Nat) (ex : Int) : ℚ :=
  if 0 ≤ ex then mkRat ((mant : Int) * 10 ^ ex.toNat) (10 ^ fracDigits)
  else mkRat (mant : Int) (10 ^ fracDigits * 10 ^ (-ex).toNat)

/-- Parse an unsigned decimal literal prefix (`digits`, `digits.digits`,
`digits.`, or `.digits`, each with an optional exponent), returning its
rational value and the unconsumed rest; `none` when no digit is found. -/
def parseUnsigned (cs : List Char) : Option (ℚ × List Char) :=
  let (ip, nInt, rest) := parseDigitsAux cs 0 0
  match rest with
  | '.' :: rest2 =>
    let (fp, nFrac, rest3) := parseDigitsAux rest2 0 0
    if nInt + nFrac = 0 then none
    else
      let (ex, rest4) := parseExpPart rest3
      some (qOfDecimal (ip * 10 ^ nFrac + fp) nFrac ex, rest4)
  | _ =>
    if nInt = 0 then none
    else
      let (ex, rest4) := parseExpPart rest
      some (qOfDecimal ip 0 ex, rest4)

/-- Parse an optionally signed decimal literal prefix. -/
def parseSigned (cs : List Char) : Option (ℚ × List Char) :=
  match cs with
  | '+' :: r => parseUnsigned r
  | '-' :: r => (parseUnsigned r).map (fun p => (qneg p.1, p.2))
  | _ => parseUnsigned cs

/-- JS `parseFloat`: skip leading whitespace, read the longest signed
decimal prefix, ignore the rest; `none` models `NaN`. -/
def jsParseFloat (s : String) : Option ℚ :=
  (parseSigned (s.data.dropWhile jsIsWs)).map (fun p => p.1)

/-- JS `Number(string)`: trim whitespace, then the whole remainder must be
a decimal literal; the empty remainder is `0`; `none` models `NaN`. -/
def jsNumberOfString (s : String) : Option ℚ :=
  let cs := jsTrimList s.data
  if cs.isEmpty then some 0
  else
    match parseSigned cs with
    | some (q, []) => some q
    | _ => none

/-! JS number-to-string conversion (`String(n)`), for the finite-decimal
rationals the engine produces.  JS prints a double as its shortest
round-tripping decimal; on the exact decimals this development handles the
result is the minimal decimal expansion computed here.  (The exponent
notation JS uses for magnitudes outside `[1e-6, 1e21)` and rationals with
no finite decimal expansion are outside the claims; the latter get an
explicit `num/den` fallback spelling.) -/

/-- Expand a rational into `(n, e)` with `q = n / 10 ^ e` and `e` minimal,
with fuel; `none` when `q` has no finite decimal expansion within fuel. -/
def decExpand : Nat → ℚ → Option (Int × Nat)
  | 0, q => if q.den = 1 then some (q.num, 0) else none
  | fuel + 1, q =>
    if q.den = 1 then some (q.num, 0)
    else
      match decExpand fuel (mkRat (q.num * 10) q.den) with
      | some (n, e) => some (n, e + 1)
      | none => none

/-- JS `String(n)` for a number. -/
def jsNumToString (q : ℚ) : String :=
  match decExpand 64 q with
  | some (n, 0) => (if n < 0 then "-" else "") ++ Nat.repr n.natAbs
  | some (n, e) =>
    let s := Nat.repr n.natAbs
    let ds := if e + 1 ≤ s.length then s.data else List.replicate (e + 1 - s.length) '0' ++ s.data
    (if n < 0 then "-" else "") ++ String.mk (ds.take (ds.length - e)) ++ "." ++
      String.mk (ds.drop (ds.length - e))
  | none => (if q.num < 0 then "-" else "") ++ Nat.repr q.num.natAbs ++ "/" ++ Nat.repr q.den

/-- JS `String(v)` for a present value: numbers print canonically, strings
are themselves, `String(null)` is `"null"`. -/
def jsStringOfValue : Value → String
  | Value.num q => jsNumToString q
  | Value.str s => s
  | Value.null => "null"

/-- JS `String(row[col])` including the absent case:
`String(undefined) = "undefined"`. -/
def jsStringOfCell : Option Value → String
  | some v => jsStringOfValue v
  | none => "undefined"

/-! The stable sort model.  `List.mergeSort` and `List.merge` are compiled
by well-founded recursion, which concrete evaluation cannot unfold; the
engine therefore runs on fuel-driven structural twins proved equal to
them, and the general theorems use the core `mergeSort` lemmas through the
bridge. -/

def jsMergeFuel (le : α → α → Bool) : Nat → List α → List α → List α
  | _, [], ys => ys
  | _, x :: xs, [] => x :: xs
  | 0, x :: xs, y :: ys => x :: xs ++ y :: ys
  | fuel + 1, x :: xs, y :: ys =>
    if le x y then x :: jsMergeFuel le fuel xs (y :: ys)
    else y :: jsMergeFuel le fuel (x :: xs) ys

theorem jsMergeFuel_eq (le : α → α → Bool) :
    ∀ (fuel : Nat) (xs ys : List α), xs.length + ys.length ≤ fuel →
      jsMergeFuel le fuel xs ys = List.merge xs ys le
  | _, [], ys, _ => by simp [jsMergeFuel]
  | _, x :: xs, [], _ => by simp [jsMergeFuel]
  | 0, x :: xs, y :: ys, h => by simp at h
  | fuel + 1, x :: xs, y :: ys, h => by
    simp only [jsMergeFuel]
    rw [List.cons_merge_cons]
    simp only [List.length_cons] at h
    by_cases hle : le x y
    · rw [if_pos hle, if_pos hle, jsMergeFuel_eq le fuel xs (y :: ys) (by simp; omega)]
    · rw [if_neg hle, if_neg hle, jsMergeFuel_eq le fuel (x :: xs) ys (by simp; omega)]

def jsMerge (le : α → α → Bool) (xs ys : List α) : List α :=
  jsMergeFuel le (xs.length + ys.length) xs ys

theorem jsMerge_eq (le : α → α → Bool) (xs ys : List α) :
    jsMerge le xs ys = List.merge xs ys le :=
  jsMergeFuel_eq le _ xs ys (Nat.le_refl _)

def jsMergeSortFuel (le : α → α → Bool) : Nat → List α → List α
  | _, [] => []
  | _, [a] => [a]
  | 0, l => l
  | fuel + 1, a :: b :: xs =>
    let lr := List.splitInTwo ⟨a :: b :: xs, rfl⟩
    jsMerge le (jsMergeSortFuel le fuel lr.1.1) (jsMergeSortFuel le fuel lr.2.1)

theorem jsMergeSortFuel_eq (le : α → α → Bool) :
    ∀ (fuel : Nat) (l : List α), l.length ≤ fuel →
      jsMergeSortFuel le fuel l = List.mergeSort l le
  | _, [], _ => by simp [jsMergeSortFuel]
  | _, [a], _ => by simp [jsMergeSortFuel]
  | 0, a :: b :: xs, h => by simp at h
  | fuel + 1, a :: b :: xs, h => by
    have h1 : (List.splitInTwo ⟨a :: b :: xs, rfl⟩).1.1.length ≤ fuel := by
      simp only [List.splitInTwo_fst, List.length_take, List.length_cons]
      simp only [List.length_cons] at h
      omega
    have h2 : (List.splitInTwo ⟨a :: b :: xs, rfl⟩).2.1.length ≤ fuel := by
      simp only [List.splitInTwo_snd, List.length_drop, List.length_cons]
      simp only [List.length_cons] at h
      omega
    simp only [jsMergeSortFuel]
    rw [List.mergeSort]
    rw [jsMerge_eq, jsMergeSortFuel_eq le fuel _ h1, jsMergeSortFuel_eq le fuel _ h2]

/-- The stable sort standing in for `Array.prototype.sort` (see the module
comment): an evaluable form of `List.mergeSort`. -/
def jsSortList (le : α → α → Bool) (l : List α) : List α :=
  jsMergeSortFuel le l.length l

theorem jsSortList_eq (le : α → α → Bool) (l : List α) :
    jsSortList le l = List.mergeSort l le :=
  jsMergeSortFuel_eq le l.length l (Nat.le_refl _)

/-! The view engine of `DataTable.tsx`. -/

/-- `indexedData`: attach the 0-based original index to every row
(`data.map((row, idx) => ({ ...row, _originalIndex: idx }))`); the index is
kept beside the row rather than as an extra object property. -/
def indexedData (data : List Row) : List IndexedRow :=
  data.enum.map (fun p => (p.2, p.1))

/-- One row of the search filter: some column's stringified value contains
the lowercased term (`columns.some(col =>
String(row[col]).toLowerCase().includes(lowerTerm))`). -/
def rowMatchesTerm (columns : List String) (lowerTerm : String) (row : IndexedRow) : Bool :=
  columns.any (fun col =>
    decide (jsIncludes (jsToLower (jsStringOfCell (rowLookup row.1 col))) lowerTerm))

/-- `filteredData`: the empty term returns the input unchanged, otherwise
rows are kept when some column matches the lowercased term. -/
def filteredData (columns : List String) (searchTerm : String)
    (rows : List IndexedRow) : List IndexedRow :=
  if searchTerm = "" then rows
  else rows.filter (rowMatchesTerm columns (jsToLower searchTerm))

inductive SortDirection where
  | asc
  | desc
deriving DecidableEq

structure SortConfig where
  key : String
  direction : SortDirection

/-- The null test the sort comparator applies to each side
(`aValue === null || aValue === undefined`). -/
def cellIsNull (v : Option Value) : Bool :=
  match v with
  | none => true
  | some Value.null => true
  | some _ => false

/-- The comparator of `sortedData`, returning the JS comparator's numeric
result: null/absent on the left gives `1`, on the right `-1`; two numbers
compare by (direction-signed) difference; otherwise the lowercased
stringified forms compare lexicographically. -/
def jsCompareRows (cfg : SortConfig) (a b : IndexedRow) : ℚ :=
  let aValue := rowLookup a.1 cfg.key
  let bValue := rowLookup b.1 cfg.key
  if cellIsNull aValue then 1
  else if cellIsNull bValue then -1
  else
    match aValue, bValue with
    | some (Value.num x), some (Value.num y) =>
      match cfg.direction with
      | SortDirection.asc => qsub x y
      | SortDirection.desc => qsub y x
    | _, _ =>
      let strA := jsToLower (jsStringOfCell aValue)
      let strB := jsToLower (jsStringOfCell bValue)
      if jsStrLtb strA strB then
        match cfg.direction with
        | SortDirection.asc => -1
        | SortDirection.desc => 1
      else if jsStrLtb strB strA then
        match cfg.direction with
        | SortDirection.asc => 1
        | SortDirection.desc => -1
      else 0

/-- The boolean ordering handed to the stable sort: comparator result at
most zero keeps the left element first. -/
def jsRowLe (cfg : SortConfig) (a b : IndexedRow) : Bool :=
  qleb (jsCompareRows cfg a b) 0

/-- `sortedData`: no sort config returns the filtered rows; otherwise a
stable sort by the comparator (see the module comment for the
`Array.prototype.sort` model). -/
def sortedData (cfg : Option SortConfig) (rows : List IndexedRow) : List IndexedRow :=
  match cfg with
  | none => rows
  | some c => jsSortList (jsRowLe c) rows

/-! Selection statistics (`stats` in `DataTable.tsx`). -/

structure SelectionPoint where
  rowIndex : Nat
  colIndex : Nat
deriving DecidableEq

/-- `d3.sum` over an all-numeric list. -/
def d3sum (l : List ℚ) : ℚ := l.foldl qadd 0

/-- `d3.mean` over an all-numeric list. -/
def d3mean (l : List ℚ) : Option ℚ :=
  if l.isEmpty then none else some (qdiv (d3sum l) (l.length : ℚ))

/-- `d3.min` over an all-numeric list. -/
def d3min (l : List ℚ) : Option ℚ :=
  l.foldl (fun acc x =>
    match acc with
    | none => some x
    | some m => if qltb x m then some x else some m) none

/-- `d3.max` over an all-numeric list. -/
def d3max (l : List ℚ) : Option ℚ :=
  l.foldl (fun acc x =>
    match acc with
    | none => some x
    | some m => if qltb m x then some x else some m) none

/-- `d3.median`: the sorted-midpoint rule (middle element for odd length,
average of the two middle elements for even length). -/
def d3median (l : List ℚ) : Option ℚ :=
  let s := jsSortList qleb l
  if l.length = 0 then none
  else if l.length % 2 = 1 then s[l.length / 2]?
  else
    match s[l.length / 2 - 1]?, s[l.length / 2]? with
    | some a, some b => some (qdiv (qadd a b) 2)
    | _, _ => none

/-- Numeric coercion of one selected cell
(`typeof val === 'number' ? val : parseFloat(String(val))`); a column
index beyond `columns` reads an absent property. -/
def statsCell (row : Row) (columns : List String) (c : Nat) : Option ℚ :=
  let val : Option Value :=
    match columns[c]? with
    | none => none
    | some colName => rowLookup row colName
  match val with
  | some (Value.num q) => some q
  | v => jsParseFloat (jsStringOfCell v)

/-- The inner loop of `stats`: each column index in range counts one cell
and pushes its numeric coercion when it succeeds. -/
def statsInner (row : Row) (columns : List String) (colRange : List Nat)
    (acc : Nat × List ℚ) : Nat × List ℚ :=
  colRange.foldl (fun a c =>
    (a.1 + 1,
      match statsCell row columns c with
      | some q => a.2 ++ [q]
      | none => a.2)) acc

/-- The outer loop of `stats`: a row index beyond the visible sequence is
skipped entirely (`if (!row) continue`). -/
def statsOuter (rows : List IndexedRow) (columns : List String)
    (rowRange colRange : List Nat) : Nat × List ℚ :=
  rowRange.foldl (fun acc r =>
    match rows[r]? with
    | none => acc
    | some row => statsInner row.1 columns colRange acc) (0, [])

structure StatsResult where
  cellCount : Nat
  numericCount : Nat
  sum : Option ℚ
  avg : Option ℚ
  median : Option ℚ
  min : Option ℚ
  max : Option ℚ
deriving DecidableEq

/-- The closed interval of indices between the two selection coordinates
(normalisation by `Math.min`/`Math.max`). -/
def statsRange (a b : Nat) : List Nat :=
  List.range' (Nat.min a b) (Nat.max a b + 1 - Nat.min a b)

/-- `stats` of `DataTable.tsx`, for a present selection: cell and numeric
counts over the normalised rectangle, and the d3 aggregates when at least
one cell coerced to a number (absent aggregate fields are `none`). -/
def stats (selStart selEnd : SelectionPoint) (rows : List IndexedRow)
    (columns : List String) : StatsResult :=
  let rowRange := statsRange selStart.rowIndex selEnd.rowIndex
  let colRange := statsRange selStart.colIndex selEnd.colIndex
  let r := statsOuter rows columns rowRange colRange
  if r.2.isEmpty then
    ⟨r.1, 0, none, none, none, none, none⟩
  else
    ⟨r.1, r.2.length, some (d3sum r.2), d3mean r.2, d3median r.2, d3min r.2, d3max r.2⟩

/-! Cell editing (`startEditing` / `saveEditing` / `cancelEditing`). -/

structure EditingCell where
  rowIndex : Nat
  col : String
deriving DecidableEq

/-- The `DataTable` state the editing handlers touch: the dataset rows and
the single outstanding edit. -/
structure TableState where
  data : List Row
  editingCell : Option EditingCell
  editValue : String

/-- JS object update `{ ...row, [col]: v }`: an existing key keeps its
position and gets the new value, a new key is appended. -/
def jsSetKey (row : Row) (k : String) (v : Value) : Row :=
  if row.any (fun p => decide (p.1 = k)) then
    row.map (fun p => if p.1 = k then (k, v) else p)
  else row ++ [(k, v)]

/-- The committed value of `saveEditing`: whitespace-only text commits as
empty text; otherwise the text commits as `Number(text)` when that parse
is not NaN and the text does not end in a dot, else as the raw text. -/
def saveEditValue (s : String) : Value :=
  if jsTrim s = "" then Value.str ""
  else
    match jsNumberOfString s with
    | some q => if s.data.getLast? = some '.' then Value.str s else Value.num q
    | none => Value.str s

/-- `saveEditing`: replace the dataset with a copy whose row at the edit's
original index has the edited column set to the parsed value, then clear
the edit.  (With no outstanding edit the handler returns early.  JS would
let an out-of-range index grow the array; edits originate from an existing
row, so that branch only clears the edit state here.) -/
def saveEditing (st : TableState) : TableState :=
  match st.editingCell with
  | none => st
  | some ec =>
    match st.data[ec.rowIndex]? with
    | none => { st with editingCell := none }
    | some row =>
      { data := st.data.set ec.rowIndex (jsSetKey row ec.col (saveEditValue st.editValue))
        editingCell := none
        editValue := st.editValue }

/-- `cancelEditing`: clear the edit state, leaving the dataset untouched. -/
def cancelEditing (st : TableState) : TableState :=
  { st with editingCell := none, editValue := "" }

/-- `handleDeleteRow` in the application root: delete by original index
only when it is in bounds, otherwise change nothing.  (The JS guard also
tests `originalIndex >= 0`; original indices are naturals here.) -/
def handleDeleteRow (data : List Row) (i : Nat) : List Row :=
  if i < data.length then data.eraseIdx i else data

/-! The comparison engine of `DataComparator.tsx`. -/

/-- The three result buckets of the join.  The source's field name
`matches` is a reserved word in Lean and is rendered `matchRows`. -/
structure CompareResult where
  matchRows : List Row
  unique1 : List Row
  unique2 : List Row
deriving DecidableEq

/-- `String(row[joinKey])`, the stringified join-key value rows are
indexed and matched by. -/
def keyString (joinKey : String) (row : Row) : String :=
  jsStringOfCell (rowLookup row joinKey)

/-- Lookup in the `Map` built from dataset 2 (`map2`): since `Map.set`
overwrites, a get returns the last row whose stringified key equals `k`. -/
def map2Get (data2 : List Row) (joinKey k : String) : Option Row :=
  data2.reverse.find? (fun row => decide (keyString joinKey row = k))

/-- The merged row for a join hit: the join key unqualified (a hit row
missing the key property stores `undefined` there, observationally the
same as the absent key this model uses), then the remaining columns of
each side qualified with their file tag. -/
def mergeRows (joinKey : String) (row1 row2 : Row) : Row :=
  (match rowLookup row1 joinKey with
   | some v => [(joinKey, v)]
   | none => [])
  ++ (row1.filter (fun p => p.1 != joinKey)).map (fun p => ("(File 1) " ++ p.1, p.2))
  ++ (row2.filter (fun p => p.1 != joinKey)).map (fun p => ("(File 2) " ++ p.1, p.2))

/-- One iteration of the `data1.forEach` loop of `comparisonResult`,
accumulating `(matches, unique1, matchedKeys)`. -/
def compareStep (joinKey : String) (data2 : List Row)
    (acc : List Row × List Row × List String) (row1 : Row) :
    List Row × List Row × List String :=
  let kv := keyString joinKey row1
  match map2Get data2 joinKey kv with
  | some row2 => (acc.1 ++ [mergeRows joinKey row1 row2], acc.2.1, acc.2.2 ++ [kv])
  | none => (acc.1, acc.2.1 ++ [row1], acc.2.2)

/-- `comparisonResult` of `DataComparator.tsx`: a falsy (empty) join key
short-circuits to three empty buckets; otherwise dataset 1 is split into
matches and `unique1` by probing the dataset-2 index, and `unique2` keeps
the dataset-2 rows whose stringified key was never consumed. -/
def comparisonResult (data1 data2 : List Row) (joinKey : String) : CompareResult :=
  if joinKey = "" then ⟨[], [], []⟩
  else
    let acc := data1.foldl (compareStep joinKey data2) ([], [], [])
    ⟨acc.1, acc.2.1,
      data2.filter (fun row => !(decide (keyString joinKey row ∈ acc.2.2)))⟩

/-! The per-row diff (`selectedRowComparison`). -/

structure DiffEntry where
  col : String
  val1 : Option Value
  val2 : Option Value
  isMatch : Bool
  diff : Option ℚ
deriving DecidableEq

/-- `Array.from(new Set(l))`: first-occurrence deduplication. -/
def jsSetDedup (l : List String) : List String :=
  l.foldl (fun acc x => if x ∈ acc then acc else acc ++ [x]) []

/-- The diff record of one column of the union schema: the join key is a
trivial match; otherwise two present numbers match when numerically equal
(else the numeric difference `val2 - val1` is reported), any other two
present values match when their stringified forms agree, one present value
is a mismatch without a difference, and two absent values match. -/
def diffEntry (selectedRow : Row) (joinKey : String) (col : String) : DiffEntry :=
  if col = joinKey then
    { col := col
      val1 := rowLookup selectedRow joinKey
      val2 := rowLookup selectedRow joinKey
      isMatch := true
      diff := none }
  else
    let val1 := rowLookup selectedRow ("(File 1) " ++ col)
    let val2 := rowLookup selectedRow ("(File 2) " ++ col)
    match val1, val2 with
    | some (Value.num q1), some (Value.num q2) =>
      if q1 = q2 then { col := col, val1 := val1, val2 := val2, isMatch := true, diff := none }
      else { col := col, val1 := val1, val2 := val2, isMatch := false, diff := some (qsub q2 q1) }
    | some v1, some v2 =>
      { col := col, val1 := val1, val2 := val2
        isMatch := decide (jsStringOfValue v1 = jsStringOfValue v2), diff := none }
    | none, none =>
      { col := col, val1 := val1, val2 := val2, isMatch := true, diff := none }
    | _, _ =>
      { col := col, val1 := val1, val2 := val2, isMatch := false, diff := none }

/-- The reorder comparator of the diff rows (`a.isMatch === b.isMatch ? 0
: a.isMatch ? 1 : -1`), reflected to the stable sort's boolean order. -/
def diffCompare (a b : DiffEntry) : ℚ :=
  if a.isMatch = b.isMatch then 0 else if a.isMatch then 1 else -1

def diffLe (a b : DiffEntry) : Bool :=
  qleb (diffCompare a b) 0

/-- `selectedRowComparison`: one diff record per column of the union of
both column lists (first-occurrence order), stably reordered with
mismatches first. -/
def selectedRowComparison (selectedRow : Row) (cols1 cols2 : List String)
    (joinKey : String) : List DiffEntry :=
  jsSortList diffLe ((jsSetDedup (cols1 ++ cols2)).map (diffEntry selectedRow joinKey))

/-! Claim C4: filter monotonicity and empty-term identity. -/

theorem jsToLower_substr {t1 t2 : String} (h : t1.data <:+: t2.data) :
    (jsToLower t1).data <:+: (jsToLower t2).data := by
  simpa [jsToLower] using h.map Char.toLower

theorem rowMatchesTerm_mono (columns : List String) {t1 t2 : String}
    (h : (jsToLower t1).data <:+: (jsToLower t2).data) (r : IndexedRow)
    (h2 : rowMatchesTerm columns (jsToLower t2) r = true) :
    rowMatchesTerm columns (jsToLower t1) r = true := by
  rw [rowMatchesTerm, List.any_eq_true] at h2 ⊢
  obtain ⟨col, hcol, hinc⟩ := h2
  exact ⟨col, hcol, by
    rw [decide_eq_true_iff] at hinc ⊢
    exact h.trans hinc⟩

/-- C4.  For all search terms, if `t1` is a substring of `t2` then every
row the filter retains for `t2` is also retained for `t1` (the visible set
for `t2` is a subset of the one for `t1`), and the empty term keeps all
rows in their original order. -/
theorem claimC4_filter_monotonicity (columns : List String) (rows : List IndexedRow)
    (t1 t2 : String) (h : jsIncludes t2 t1) :
    filteredData columns t2 rows ⊆ filteredData columns t1 rows ∧
    filteredData columns "" rows = rows := by
  have e1 : filteredData columns "" rows = rows := by
    rw [filteredData, if_pos rfl]
  refine ⟨?_, e1⟩
  by_cases h1 : t1 = ""
  · subst h1
    rw [e1]
    by_cases h2 : t2 = ""
    · subst h2
      rw [e1]
      exact fun x hx => hx
    · rw [filteredData, if_neg h2]
      intro x hx
      exact List.mem_of_mem_filter hx
  · have h2 : t2 ≠ "" := by
      intro h2
      subst h2
      apply h1
      apply String.ext
      exact List.sublist_nil.mp (by simpa using h.sublist)
    rw [filteredData, filteredData, if_neg h1, if_neg h2]
    intro r hr
    rw [List.mem_filter] at hr ⊢
    exact ⟨hr.1, rowMatchesTerm_mono columns (jsToLower_substr h) r hr.2⟩

/-- C4 witness: the theorem applied at `t1 = "a"`, `t2 = "ab"` and a
concrete two-row dataset. -/
theorem claimC4_filter_monotonicity_witness :
    jsIncludes "ab" "a" ∧
    (filteredData ["n"] "ab" [([("n", Value.str "abc")], 0), ([("n", Value.str "xa")], 1)] ⊆
       filteredData ["n"] "a" [([("n", Value.str "abc")], 0), ([("n", Value.str "xa")], 1)] ∧
     filteredData ["n"] "" [([("n", Value.str "abc")], 0), ([("n", Value.str "xa")], 1)] =
       [([("n", Value.str "abc")], 0), ([("n", Value.str "xa")], 1)]) :=
  ⟨by decide, claimC4_filter_monotonicity ["n"] _ "a" "ab" (by decide)⟩

/-! Claim C2: null/absent sort-key values order after present ones, for
both directions. -/

theorem merge_pairwise_imp {le : α → α → Bool} (P : α → Prop)
    (h1 : ∀ a b, P a → le a b = false)
    (h2 : ∀ a b, ¬ P a → P b → le a b = true) :
    ∀ (xs ys : List α), xs.Pairwise (fun a b => P a → P b) →
      ys.Pairwise (fun a b => P a → P b) →
      (List.merge xs ys le).Pairwise (fun a b => P a → P b) := by
  intro xs
  induction xs with
  | nil => intro ys _ hy; simpa using hy
  | cons x xs ih1 =>
    intro ys
    induction ys with
    | nil => intro hx _; simpa using hx
    | cons y ys ih2 =>
      intro hx hy
      rw [List.cons_merge_cons]
      by_cases hle : le x y
      · rw [if_pos hle]
        apply List.Pairwise.cons
        · intro z _ hPx
          exact absurd hle (by rw [h1 x y hPx]; exact Bool.false_ne_true)
        · exact ih1 (y :: ys) hx.tail hy
      · rw [if_neg hle]
        apply List.Pairwise.cons
        · intro z hz hPy
          have hPx : P x := by
            by_contra hPx
            exact hle (h2 x y hPx hPy)
          rcases List.mem_merge.mp hz with hz1 | hz2
          · rcases List.mem_cons.mp hz1 with rfl | hz1
            · exact hPx
            · exact List.rel_of_pairwise_cons hx hz1 hPx
          · exact List.rel_of_pairwise_cons hy hz2 hPy
        · exact ih2 hx hy.tail

theorem mergeSort_pairwise_imp {le : α → α → Bool} (P : α → Prop)
    (h1 : ∀ a b, P a → le a b = false)
    (h2 : ∀ a b, ¬ P a → P b → le a b = true) :
    ∀ (l : List α), (List.mergeSort l le).Pairwise (fun a b => P a → P b)
  | [] => by simp
  | [a] => by simp
  | a :: b :: xs => by
    have hl1 : (List.splitInTwo ⟨a :: b :: xs, rfl⟩).1.1.length < xs.length + 1 + 1 := by
      simp [List.splitInTwo_fst]
      omega
    have hl2 : (List.splitInTwo ⟨a :: b :: xs, rfl⟩).2.1.length < xs.length + 1 + 1 := by
      simp [List.splitInTwo_snd]
      omega
    rw [List.mergeSort]
    exact merge_pairwise_imp P h1 h2 _ _
      (mergeSort_pairwise_imp P h1 h2 _) (mergeSort_pairwise_imp P h1 h2 _)
termination_by l => l.length

/-- A row whose value at `key` is null or absent. -/
def nullAtKey (key : String) (r : IndexedRow) : Prop :=
  cellIsNull (rowLookup r.1 key) = true

instance (key : String) (r : IndexedRow) : Decidable (nullAtKey key r) :=
  instDecidableEqBool _ _

theorem jsRowLe_of_null_left (cfg : SortConfig) (a b : IndexedRow)
    (h : nullAtKey cfg.key a) : jsRowLe cfg a b = false := by
  rw [jsRowLe, jsCompareRows]
  rw [nullAtKey] at h
  rw [if_pos h]
  decide

theorem jsRowLe_of_null_right (cfg : SortConfig) (a b : IndexedRow)
    (ha : ¬ nullAtKey cfg.key a) (hb : nullAtKey cfg.key b) : jsRowLe cfg a b = true := by
  rw [jsRowLe, jsCompareRows]
  rw [nullAtKey] at ha hb
  rw [if_neg ha, if_pos hb]
  decide

/-- C2.  For every row list and sort key, in both directions, no row whose
value at the key is null/absent ever precedes a row whose value is present
in the sorted output; and the spec's example sorts
`[{n:"b"}, {n:"a"}, {n:null}]` ascending by `n` into the value order
`["a", "b", null]`. -/
theorem claimC2_sort_nulls_last (key : String) (dir : SortDirection)
    (rows : List IndexedRow) :
    (sortedData (some ⟨key, dir⟩) rows).Pairwise
      (fun a b => nullAtKey key a → nullAtKey key b) ∧
    sortedData (some ⟨"n", SortDirection.asc⟩)
        [([("n", Value.str "b")], 0), ([("n", Value.str "a")], 1), ([("n", Value.null)], 2)] =
      [([("n", Value.str "a")], 1), ([("n", Value.str "b")], 0), ([("n", Value.null)], 2)] := by
  constructor
  · rw [sortedData, jsSortList_eq]
    exact mergeSort_pairwise_imp (nullAtKey key)
      (fun a b => jsRowLe_of_null_left ⟨key, dir⟩ a b)
      (fun a b => jsRowLe_of_null_right ⟨key, dir⟩ a b) rows
  · decide

/-! Claim C3: stability of the sort for tied keys.  The comparator never
reports a tie for two null-valued rows (it returns `1` for both argument
orders), and the stable merge sort therefore reverses such pairs; the
amended stability statement asks every value at the sort key to be
numeric, which makes the comparator transitive and total. -/

theorem pmap_mk_sublist {P : α → Prop} :
    ∀ {l₁ l₂ : List α}, l₁ <+ l₂ → ∀ (H₁ : ∀ a ∈ l₁, P a) (H₂ : ∀ a ∈ l₂, P a),
      l₁.pmap (fun a h => (⟨a, h⟩ : {x // P x})) H₁ <+
        l₂.pmap (fun a h => (⟨a, h⟩ : {x // P x})) H₂ := by
  intro l₁ l₂ s
  induction s with
  | slnil => intro _ _; simp
  | cons a s ih =>
    intro H₁ H₂
    simp only [List.pmap]
    exact (ih H₁ _).cons _
  | cons₂ a s ih =>
    intro H₁ H₂
    simp only [List.pmap]
    exact (ih _ _).cons₂ _

theorem jsRowLe_num_iff (key : String) (dir : SortDirection) (a b : IndexedRow)
    (qa qb : ℚ) (ha : rowLookup a.1 key = some (Value.num qa))
    (hb : rowLookup b.1 key = some (Value.num qb)) :
    jsRowLe ⟨key, dir⟩ a b = true ↔
      (match dir with
       | SortDirection.asc => qa ≤ qb
       | SortDirection.desc => qb ≤ qa) := by
  rw [jsRowLe]
  rw [show jsCompareRows ⟨key, dir⟩ a b =
      (match dir with
       | SortDirection.asc => qsub qa qb
       | SortDirection.desc => qsub qb qa) by
    rw [jsCompareRows]
    simp only [ha, hb, cellIsNull]
    rfl]
  cases dir with
  | asc =>
    show qleb (qsub qa qb) 0 = true ↔ qa ≤ qb
    rw [qleb_iff, qsub_eq, sub_nonpos]
  | desc =>
    show qleb (qsub qb qa) 0 = true ↔ qb ≤ qa
    rw [qleb_iff, qsub_eq, sub_nonpos]

/-- C3 counterexample.  Two rows both lacking the sort key `"n"` (their
values there are null/absent, the tie case the claim includes) are swapped
by the sort; the comparator orders each after the other, so the as-stated
stability claim fails at this input. -/
theorem claimC3_counterexample :
    sortedData (some ⟨"n", SortDirection.asc⟩)
        [([("id", Value.num 1)], 0), ([("id", Value.num 2)], 1)] =
      [([("id", Value.num 2)], 1), ([("id", Value.num 1)], 0)] ∧
    ([("id", Value.num 1)], (0 : Nat)) ≠ ([("id", Value.num 2)], (1 : Nat)) ∧
    jsCompareRows ⟨"n", SortDirection.asc⟩
        ([("id", Value.num 1)], 0) ([("id", Value.num 2)], 1) = 1 ∧
    jsCompareRows ⟨"n", SortDirection.asc⟩
        ([("id", Value.num 2)], 1) ([("id", Value.num 1)], 0) = 1 :=
  ⟨by decide, by decide, by decide, by decide⟩

/-- C3 amended.  When every row's value at the sort key is a number (which
makes the comparator transitive and total across the rows being sorted),
any two rows whose values compare equal keep, in both directions, the
relative order they had in the (filtered) input; rows null/absent at the
key are excluded, since the comparator never reports a tie for them and
the counterexample shows such a pair being swapped. -/
theorem claimC3_sort_stable_amended (key : String) (dir : SortDirection)
    (rows : List IndexedRow) (x y : IndexedRow)
    (hnum : ∀ r ∈ rows, ∃ q, rowLookup r.1 key = some (Value.num q))
    (hxy : [x, y] <+ rows)
    (heq : jsCompareRows ⟨key, dir⟩ x y = 0) :
    [x, y] <+ sortedData (some ⟨key, dir⟩) rows := by
  rw [sortedData, jsSortList_eq]
  have hx : ∃ q, rowLookup x.1 key = some (Value.num q) :=
    hnum x (hxy.subset (by simp))
  have hy : ∃ q, rowLookup y.1 key = some (Value.num q) :=
    hnum y (hxy.subset (by simp))
  let le' : {r : IndexedRow // ∃ q, rowLookup r.1 key = some (Value.num q)} →
      {r : IndexedRow // ∃ q, rowLookup r.1 key = some (Value.num q)} → Bool :=
    fun a b => jsRowLe ⟨key, dir⟩ a.1 b.1
  have trans' : ∀ a b c, le' a b → le' b c → le' a c := by
    rintro ⟨a, qa, hqa⟩ ⟨b, qb, hqb⟩ ⟨c, qc, hqc⟩ hab hbc
    rw [show le' ⟨a, ⟨qa, hqa⟩⟩ ⟨b, ⟨qb, hqb⟩⟩ = jsRowLe ⟨key, dir⟩ a b from rfl,
      jsRowLe_num_iff key dir a b qa qb hqa hqb] at hab
    rw [show le' ⟨b, ⟨qb, hqb⟩⟩ ⟨c, ⟨qc, hqc⟩⟩ = jsRowLe ⟨key, dir⟩ b c from rfl,
      jsRowLe_num_iff key dir b c qb qc hqb hqc] at hbc
    rw [show le' ⟨a, ⟨qa, hqa⟩⟩ ⟨c, ⟨qc, hqc⟩⟩ = jsRowLe ⟨key, dir⟩ a c from rfl,
      jsRowLe_num_iff key dir a c qa qc hqa hqc]
    cases dir with
    | asc => exact le_trans hab hbc
    | desc => exact le_trans hbc hab
  have total' : ∀ a b, le' a b || le' b a := by
    rintro ⟨a, qa, hqa⟩ ⟨b, qb, hqb⟩
    rw [Bool.or_eq_true,
      show le' ⟨a, ⟨qa, hqa⟩⟩ ⟨b, ⟨qb, hqb⟩⟩ = jsRowLe ⟨key, dir⟩ a b from rfl,
      show le' ⟨b, ⟨qb, hqb⟩⟩ ⟨a, ⟨qa, hqa⟩⟩ = jsRowLe ⟨key, dir⟩ b a from rfl,
      jsRowLe_num_iff key dir a b qa qb hqa hqb,
      jsRowLe_num_iff key dir b a qb qa hqb hqa]
    cases dir with
    | asc => exact le_total qa qb
    | desc => exact le_total qb qa
  have hmapval : (rows.pmap (fun r h => (⟨r, h⟩ :
      {r : IndexedRow // ∃ q, rowLookup r.1 key = some (Value.num q)})) hnum).map
        Subtype.val = rows := by
    rw [List.map_pmap]
    exact (List.pmap_eq_map _ (fun a => a) rows hnum).trans (List.map_id rows)
  have hsort : ((rows.pmap (fun r h => (⟨r, h⟩ :
      {r : IndexedRow // ∃ q, rowLookup r.1 key = some (Value.num q)})) hnum).mergeSort
        le').map Subtype.val =
      ((rows.pmap (fun r h => (⟨r, h⟩ :
        {r : IndexedRow // ∃ q, rowLookup r.1 key = some (Value.num q)})) hnum).map
          Subtype.val).mergeSort (jsRowLe ⟨key, dir⟩) :=
    List.map_mergeSort (fun a _ b _ => rfl)
  rw [hmapval] at hsort
  have hXY : ∀ a ∈ [x, y], ∃ q, rowLookup a.1 key = some (Value.num q) := by
    intro a ha
    rcases List.mem_cons.mp ha with rfl | ha
    · exact hx
    rcases List.mem_cons.mp ha with rfl | ha
    · exact hy
    · cases ha
  have hpair : [(⟨x, hx⟩ : {r : IndexedRow // ∃ q, rowLookup r.1 key = some (Value.num q)}),
      ⟨y, hy⟩] <+ rows.pmap (fun r h => ⟨r, h⟩) hnum := by
    have h0 := pmap_mk_sublist hxy hXY hnum
    simpa [List.pmap] using h0
  have hle : le' ⟨x, hx⟩ ⟨y, hy⟩ = true := by
    rw [show le' ⟨x, hx⟩ ⟨y, hy⟩ = jsRowLe ⟨key, dir⟩ x y from rfl, jsRowLe, heq]
    decide
  have hsub := List.pair_sublist_mergeSort trans' total' hle hpair
  have hmap := hsub.map Subtype.val
  rw [hsort] at hmap
  simpa using hmap

/-- C3 amended witness: the theorem applied to a concrete three-row
numeric dataset with a tie between the first and last rows. -/
theorem claimC3_sort_stable_amended_witness :
    [([("k", Value.num 2)], (0 : Nat)), ([("k", Value.num 2)], 2)] <+
      sortedData (some ⟨"k", SortDirection.asc⟩)
        [([("k", Value.num 2)], 0), ([("k", Value.num 1)], 1), ([("k", Value.num 2)], 2)] := by
  apply claimC3_sort_stable_amended "k" SortDirection.asc _ _ _
  · intro r hr
    fin_cases hr
    · exact ⟨2, rfl⟩
    · exact ⟨1, rfl⟩
    · exact ⟨2, rfl⟩
  · exact .cons₂ _ (.cons _ (.cons₂ _ .slnil))
  · decide

/-! Claim C10: stringification of null and absent cells in the search
path.  `String(null)` is `"null"`, but `String(undefined)` is
`"undefined"` — an absent cell is not stringified to `"null"` (nor to the
empty string), while the display path renders a null cell as empty. -/

/-- The display of one cell (`row[col] !== null && row[col] !== '' ?
String(row[col]) : <empty span>`), as the text shown. -/
def displayCell (v : Option Value) : String :=
  match v with
  | some Value.null => ""
  | some (Value.str "") => ""
  | v => jsStringOfCell v

/-- C10 counterexample.  A row whose only cell at the searched column is
absent is not retained by the search term `"null"`, because the absent
value stringifies to `"undefined"`, not to `"null"` as the claim states
for the null/absent case. -/
theorem claimC10_counterexample :
    jsStringOfCell none = "undefined" ∧
    jsStringOfCell none ≠ "null" ∧
    filteredData ["a"] "null" [(([] : Row), 0)] = [] :=
  ⟨by decide, by decide, by decide⟩

/-- C10 amended.  In the search filter a null cell value is stringified to
the four-character text `"null"`, so a row with a null cell is retained by
any nonempty term whose lowercase form is a substring of `"null"`
(`"null"`, `"nul"`, ...) even when no textual cell contains it, while the
display path renders the same null cell as empty; an absent cell value is
stringified to `"undefined"` — neither to `"null"` nor to the empty
string. -/
theorem claimC10_null_search_amended (rows : List IndexedRow) (columns : List String)
    (row : IndexedRow) (term : String)
    (hrow : row ∈ rows)
    (hcol : ∃ c ∈ columns, rowLookup row.1 c = some Value.null)
    (hterm : term ≠ "")
    (hsub : (jsToLower term).data <:+: ("null" : String).data) :
    row ∈ filteredData columns term rows ∧
    jsStringOfValue Value.null = "null" ∧
    jsStringOfCell none = "undefined" ∧
    displayCell (some Value.null) = "" := by
  refine ⟨?_, rfl, rfl, rfl⟩
  rw [filteredData, if_neg hterm]
  rw [List.mem_filter]
  refine ⟨hrow, ?_⟩
  rw [rowMatchesTerm, List.any_eq_true]
  obtain ⟨c, hc, hnull⟩ := hcol
  refine ⟨c, hc, ?_⟩
  rw [decide_eq_true_iff]
  rw [hnull]
  exact hsub

/-- C10 amended witness: the theorem applied to a one-row dataset with a
null cell and the search term `"nul"`. -/
theorem claimC10_null_search_amended_witness :
    ([("a", Value.null)], (0 : Nat)) ∈
      filteredData ["a"] "nul" [([("a", Value.null)], 0)] ∧
    jsStringOfValue Value.null = "null" ∧
    jsStringOfCell none = "undefined" ∧
    displayCell (some Value.null) = "" :=
  claimC10_null_search_amended [([("a", Value.null)], 0)] ["a"]
    ([("a", Value.null)], 0) "nul" (by decide) ⟨"a", by decide, by decide⟩
    (by decide) (by decide)

theorem rowLookup_map_setKey_ne (k c : String) (v : Value) (h : ¬ k = c) :
    ∀ row : Row,
      rowLookup (row.map (fun p => if p.1 = k then (k, v) else p)) c = rowLookup row c
  | [] => rfl
  | p :: row => by
    by_cases hp : p.1 = k
    · simp only [List.map_cons, rowLookup, hp]
      simp [h, rowLookup_map_setKey_ne k c v h row]
    · simp only [List.map_cons, rowLookup, if_neg hp]
      by_cases hpc : p.1 = c
      · simp [hpc]
      · simp [hpc, rowLookup_map_setKey_ne k c v h row]

theorem rowLookup_map_setKey_self (k : String) (v : Value) :
    ∀ row : Row, row.any (fun p => decide (p.1 = k)) = true →
      rowLookup (row.map (fun p => if p.1 = k then (k, v) else p)) k = some v
  | [] => by intro h; cases h
  | p :: row => by
    intro hany
    by_cases hp : p.1 = k
    · simp [rowLookup, hp]
    · have hrest : row.any (fun p => decide (p.1 = k)) = true := by
        rcases List.any_eq_true.mp hany with ⟨q, hq, hqk⟩
        rcases List.mem_cons.mp hq with rfl | hq
        · exact absurd (of_decide_eq_true hqk) hp
        · exact List.any_eq_true.mpr ⟨q, hq, hqk⟩
      simp [rowLookup, hp, rowLookup_map_setKey_self k v row hrest]

theorem rowLookup_append_single_ne (k c : String) (v : Value) (h : ¬ k = c) :
    ∀ row : Row, rowLookup (row ++ [(k, v)]) c = rowLookup row c
  | [] => by simp [rowLookup, h]
  | p :: row => by
    by_cases hpc : p.1 = c
    · simp [rowLookup, hpc]
    · simp [rowLookup, hpc, rowLookup_append_single_ne k c v h row]

theorem rowLookup_append_single_self (k : String) (v : Value) :
    ∀ row : Row, row.any (fun p => decide (p.1 = k)) = false →
      rowLookup (row ++ [(k, v)]) k = some v
  | [], _ => by simp [rowLookup]
  | p :: row, hany => by
    have hp : ¬ p.1 = k := by
      have := List.any_eq_false.mp hany p (by simp)
      simpa using this
    have hrest : row.any (fun p => decide (p.1 = k)) = false := by
      rw [List.any_eq_false]
      intro q hq
      exact List.any_eq_false.mp hany q (by simp [hq])
    simp [rowLookup, hp, rowLookup_append_single_self k v row hrest]

theorem rowLookup_jsSetKey_self (row : Row) (k : String) (v : Value) :
    rowLookup (jsSetKey row k v) k = some v := by
  rw [jsSetKey]
  by_cases hany : row.any (fun p => decide (p.1 = k)) = true
  · rw [if_pos hany]
    exact rowLookup_map_setKey_self k v row hany
  · rw [if_neg hany]
    exact rowLookup_append_single_self k v row (by rwa [Bool.not_eq_true] at hany)

theorem rowLookup_jsSetKey_ne (row : Row) (k c : String) (v : Value) (h : c ≠ k) :
    rowLookup (jsSetKey row k v) c = rowLookup row c := by
  have hkc : ¬ k = c := fun e => h e.symm
  rw [jsSetKey]
  by_cases hany : row.any (fun p => decide (p.1 = k)) = true
  · rw [if_pos hany]
    exact rowLookup_map_setKey_ne k c v hkc row
  · rw [if_neg hany]
    exact rowLookup_append_single_ne k c v hkc row

/-- C6.  With an outstanding edit at `(originalIndex i, column c)` on an
existing row, committing produces a dataset of the same length that agrees
with the old one on every row other than `i`, and whose row `i` agrees
with the old row on every column other than `c` while holding the parsed
value at `c`; the edit state is cleared, and cancelling leaves the dataset
entirely unchanged.  The old dataset value is never mutated (the embedding
is purely functional). -/
theorem claimC6_edit_commit_frame (st : TableState) (i : Nat) (c : String) (row : Row)
    (hec : st.editingCell = some ⟨i, c⟩)
    (hrow : st.data[i]? = some row) :
    (saveEditing st).data.length = st.data.length ∧
    (∀ j, j ≠ i → (saveEditing st).data[j]? = st.data[j]?) ∧
    (saveEditing st).data[i]? = some (jsSetKey row c (saveEditValue st.editValue)) ∧
    rowLookup (jsSetKey row c (saveEditValue st.editValue)) c =
      some (saveEditValue st.editValue) ∧
    (∀ c2, c2 ≠ c → rowLookup (jsSetKey row c (saveEditValue st.editValue)) c2 =
      rowLookup row c2) ∧
    (saveEditing st).editingCell = none ∧
    (cancelEditing st).data = st.data := by
  have hi : i < st.data.length := by
    by_contra hlt
    rw [List.getElem?_eq_none (by omega)] at hrow
    cases hrow
  have hsave : saveEditing st =
      { data := st.data.set i (jsSetKey row c (saveEditValue st.editValue))
        editingCell := none
        editValue := st.editValue } := by
    simp only [saveEditing, hec, hrow]
  rw [hsave]
  refine ⟨List.length_set .., ?_, ?_, rowLookup_jsSetKey_self row c _, ?_, rfl, rfl⟩
  · intro j hj
    exact List.getElem?_set_ne (fun e => hj e.symm)
  · exact List.getElem?_set_self hi
  · intro c2 hc2
    exact rowLookup_jsSetKey_ne row c c2 _ hc2

/-- C6 witness: the theorem applied to a concrete two-row dataset with an
edit staged at row 0, column `"a"`, with staged text `"5"`. -/
theorem claimC6_edit_commit_frame_witness :
    (saveEditing ⟨[[("a", Value.num 1)], [("a", Value.num 2)]],
        some ⟨0, "a"⟩, "5"⟩).data[1]? = some [("a", Value.num 2)] ∧
    (saveEditing ⟨[[("a", Value.num 1)], [("a", Value.num 2)]],
        some ⟨0, "a"⟩, "5"⟩).data[0]? = some [("a", Value.num 5)] ∧
    (cancelEditing ⟨[[("a", Value.num 1)], [("a", Value.num 2)]],
        some ⟨0, "a"⟩, "5"⟩).data = [[("a", Value.num 1)], [("a", Value.num 2)]] := by
  have h := claimC6_edit_commit_frame
    ⟨[[("a", Value.num 1)], [("a", Value.num 2)]], some ⟨0, "a"⟩, "5"⟩
    0 "a" [("a", Value.num 1)] rfl rfl
  refine ⟨h.2.1 1 (by decide), ?_, h.2.2.2.2.2.2⟩
  have h0 := h.2.2.1
  rw [h0]
  decide

/-! Claim C7: deletion by original index.  The out-of-bounds no-op and the
exact removal hold, but original indices are positional: after an
in-bounds delete every later row's original index drops by one in the next
snapshot, so "shifts no other row's original index" fails. -/

/-- C7 counterexample.  In `[r0, r1, r2]` the row `r2` has original index
`2`; after `delete(1)` it survives but re-indexes to `1` — its original
index shifts, contradicting the claim. -/
theorem claimC7_counterexample :
    (([("a", Value.num 3)], (2 : Nat)) ∈
      indexedData [[("a", Value.num 1)], [("a", Value.num 2)], [("a", Value.num 3)]]) ∧
    (([("a", Value.num 3)], (2 : Nat)) ∉
      indexedData (handleDeleteRow
        [[("a", Value.num 1)], [("a", Value.num 2)], [("a", Value.num 3)]] 1)) ∧
    (([("a", Value.num 3)], (1 : Nat)) ∈
      indexedData (handleDeleteRow
        [[("a", Value.num 1)], [("a", Value.num 2)], [("a", Value.num 3)]] 1)) :=
  ⟨by decide, by decide, by decide⟩

/-- C7 amended.  `delete(i)` with `i` outside `[0, rowCount)` leaves the
dataset unchanged (a no-op, not a fault); in bounds it removes exactly the
row at original index `i` — rows before `i` keep their positions and every
later row moves one position down, so its original index in the next
snapshot is decremented by one; and filtering and sorting never change any
row's original index (every indexed row in the visible sequence occurs,
with the same index, in `indexedData`). -/
theorem claimC7_delete_bounds_amended (data : List Row) (i : Nat)
    (cols : List String) (term : String) (cfg : Option SortConfig) :
    (data.length ≤ i → handleDeleteRow data i = data) ∧
    (i < data.length →
      (handleDeleteRow data i).length = data.length - 1 ∧
      (∀ j, j < i → (handleDeleteRow data i)[j]? = data[j]?) ∧
      (∀ j, i ≤ j → (handleDeleteRow data i)[j]? = data[j + 1]?)) ∧
    (∀ p, p ∈ sortedData cfg (filteredData cols term (indexedData data)) →
      p ∈ indexedData data) := by
  refine ⟨?_, ?_, ?_⟩
  · intro h
    rw [handleDeleteRow, if_neg (by omega)]
  · intro h
    rw [handleDeleteRow, if_pos h, List.eraseIdx_eq_take_drop_succ]
    have htake : (data.take i).length = i := List.length_take_of_le (by omega)
    refine ⟨?_, ?_, ?_⟩
    · rw [List.length_append, htake, List.length_drop]
      omega
    · intro j hj
      rw [List.getElem?_append_left (by omega)]
      rw [List.getElem?_take_of_lt hj]
    · intro j hj
      rw [List.getElem?_append_right (by omega), List.getElem?_drop, htake]
      congr 1
      omega
  · intro p hp
    have hp2 : p ∈ filteredData cols term (indexedData data) := by
      cases cfg with
      | none => exact hp
      | some c =>
        rw [sortedData, jsSortList_eq] at hp
        exact List.mem_mergeSort.mp hp
    rw [filteredData] at hp2
    by_cases ht : term = ""
    · rwa [if_pos ht] at hp2
    · rw [if_neg ht] at hp2
      exact List.mem_of_mem_filter hp2

/-- C7 amended witness: the theorem applied to a concrete three-row
dataset, deleting index 1, with a filter term and an ascending sort. -/
theorem claimC7_delete_bounds_amended_witness :
    handleDeleteRow [[("a", Value.num 1)], [("a", Value.num 2)], [("a", Value.num 3)]] 5 =
      [[("a", Value.num 1)], [("a", Value.num 2)], [("a", Value.num 3)]] ∧
    (handleDeleteRow [[("a", Value.num 1)], [("a", Value.num 2)],
      [("a", Value.num 3)]] 1)[1]? = some [("a", Value.num 3)] ∧
    (([("a", Value.num 2)], (1 : Nat)) ∈ indexedData
      [[("a", Value.num 1)], [("a", Value.num 2)], [("a", Value.num 3)]]) := by
  have h1 := (claimC7_delete_bounds_amended
    [[("a", Value.num 1)], [("a", Value.num 2)], [("a", Value.num 3)]] 5
    ["a"] "" none).1 (by decide)
  have h2 := ((claimC7_delete_bounds_amended
    [[("a", Value.num 1)], [("a", Value.num 2)], [("a", Value.num 3)]] 1
    ["a"] "" none).2.1 (by decide)).2.2 1 (by decide)
  have h3 := (claimC7_delete_bounds_amended
    [[("a", Value.num 1)], [("a", Value.num 2)], [("a", Value.num 3)]] 1
    ["a"] "2" (some ⟨"a", SortDirection.asc⟩)).2.2
    ([("a", Value.num 2)], 1) (by decide)
  exact ⟨h1, by rw [h2]; decide, h3⟩

/-! Claim C5: the committed value of an edit.  The code commits a number
exactly when `Number(text)` is not NaN and the text does not end in a dot;
the spec instead states a canonical-decimal round-trip rule, which already
contradicts its own example `"12.0" ↦ 12` (the canonical form of `12` is
`"12"`, not `"12.0"`). -/

/-- Modelled from the spec: the commit rule it states for `saveEditing` —
"if the text round-trips through numeric parsing to the same canonical
decimal representation, commit as a number, else commit as text" (the
empty/whitespace case unchanged).  This definition exists only to be
compared against the source's `saveEditValue`. -/
def specSaveEditValue (s : String) : Value :=
  if jsTrim s = "" then Value.str ""
  else
    match jsNumberOfString s with
    | some q => if jsNumToString q = s then Value.num q else Value.str s
    | none => Value.str s

/-- C5 counterexample.  On the staged text `"12.0"` the code commits the
number `12` (as the claim's own example says), but the claim's round-trip
rule commits the text `"12.0"`, since the canonical decimal representation
of `12` is `"12"`; the rule and the example cannot both hold, so the claim
as stated is false. -/
theorem claimC5_counterexample :
    saveEditValue "12.0" = Value.num 12 ∧
    specSaveEditValue "12.0" = Value.str "12.0" ∧
    jsNumToString 12 = "12" ∧
    Value.num 12 ≠ Value.str "12.0" :=
  ⟨by decide, by decide, by decide, by decide⟩

/-- C5 amended.  Committing a staged text that is empty or whitespace-only
stores empty text; otherwise the text is stored as the number
`Number(text)` exactly when that parse is not NaN and the text does not
end with a dot, and as the raw text otherwise; in particular `"12.0"`
commits as the number `12` and `"12."` commits as the text `"12."`. -/
theorem claimC5_edit_value_parsing_amended (s : String) :
    (jsTrim s = "" → saveEditValue s = Value.str "") ∧
    (jsTrim s ≠ "" → ∀ q, jsNumberOfString s = some q → s.data.getLast? ≠ some '.' →
      saveEditValue s = Value.num q) ∧
    (jsTrim s ≠ "" → jsNumberOfString s = none → saveEditValue s = Value.str s) ∧
    (jsTrim s ≠ "" → s.data.getLast? = some '.' → saveEditValue s = Value.str s) ∧
    saveEditValue "12.0" = Value.num 12 ∧
    saveEditValue "12." = Value.str "12." := by
  refine ⟨?_, ?_, ?_, ?_, by decide, by decide⟩
  · intro h
    rw [saveEditValue, if_pos h]
  · intro h q hq hdot
    simp only [saveEditValue, if_neg h, hq]
    rw [if_neg hdot]
  · intro h hq
    simp only [saveEditValue, if_neg h, hq]
  · intro h hdot
    cases hq : jsNumberOfString s with
    | none => simp only [saveEditValue, if_neg h, hq]
    | some q =>
      simp only [saveEditValue, if_neg h, hq]
      rw [if_pos hdot]

/-- C5 amended witness: the theorem applied at the staged texts `"12.0"`
and `"12."`. -/
theorem claimC5_edit_value_parsing_amended_witness :
    saveEditValue "12.0" = Value.num 12 ∧ saveEditValue "12." = Value.str "12." :=
  ⟨(claimC5_edit_value_parsing_amended "12.0").2.1 (by decide) 12 (by decide) (by decide),
   (claimC5_edit_value_parsing_amended "12.").2.2.2.1 (by decide) (by decide)⟩

/-! Claim C1: join completeness. -/

/-- Whether a dataset-1 row hits the dataset-2 index. -/
def compareHit (joinKey : String) (data2 : List Row) (row1 : Row) : Bool :=
  (map2Get data2 joinKey (keyString joinKey row1)).isSome

theorem map2Get_isSome_iff (data2 : List Row) (joinKey k : String) :
    (map2Get data2 joinKey k).isSome = true ↔ k ∈ data2.map (keyString joinKey) := by
  rw [map2Get, List.find?_isSome]
  constructor
  · rintro ⟨row, hrow, hk⟩
    exact List.mem_map.mpr ⟨row, List.mem_reverse.mp hrow, (of_decide_eq_true hk).symm ▸ rfl⟩
  · intro hk
    rcases List.mem_map.mp hk with ⟨row, hrow, hkey⟩
    exact ⟨row, List.mem_reverse.mpr hrow, decide_eq_true hkey⟩

theorem compare_foldl_spec (joinKey : String) (data2 : List Row) :
    ∀ (data1 : List Row) (acc : List Row × List Row × List String),
      (data1.foldl (compareStep joinKey data2) acc).1.length =
        acc.1.length + (data1.filter (compareHit joinKey data2)).length ∧
      (data1.foldl (compareStep joinKey data2) acc).2.1.length =
        acc.2.1.length + (data1.filter (fun r => !compareHit joinKey data2 r)).length ∧
      (data1.foldl (compareStep joinKey data2) acc).2.2 =
        acc.2.2 ++ (data1.filter (compareHit joinKey data2)).map (keyString joinKey)
  | [], acc => by simp
  | row1 :: data1, acc => by
    rw [List.foldl_cons]
    have step : compareStep joinKey data2 acc row1 =
        (match map2Get data2 joinKey (keyString joinKey row1) with
         | some row2 => (acc.1 ++ [mergeRows joinKey row1 row2], acc.2.1,
             acc.2.2 ++ [keyString joinKey row1])
         | none => (acc.1, acc.2.1 ++ [row1], acc.2.2)) := rfl
    cases h2 : map2Get data2 joinKey (keyString joinKey row1) with
    | some row2 =>
      have hhit : compareHit joinKey data2 row1 = true := by
        rw [compareHit, h2]
        rfl
      rw [step, h2]
      obtain ⟨e1, e2, e3⟩ := compare_foldl_spec joinKey data2 data1
        (acc.1 ++ [mergeRows joinKey row1 row2], acc.2.1, acc.2.2 ++ [keyString joinKey row1])
      refine ⟨?_, ?_, ?_⟩
      · rw [e1, List.filter_cons_of_pos hhit]
        simp
        omega
      · rw [e2, List.filter_cons_of_neg (by rw [hhit]; decide)]
      · rw [e3, List.filter_cons_of_pos hhit]
        simp
    | none =>
      have hhit : compareHit joinKey data2 row1 = false := by
        rw [compareHit, h2]
        rfl
      rw [step, h2]
      obtain ⟨e1, e2, e3⟩ := compare_foldl_spec joinKey data2 data1
        (acc.1, acc.2.1 ++ [row1], acc.2.2)
      refine ⟨?_, ?_, ?_⟩
      · rw [e1, List.filter_cons_of_neg (by rw [hhit]; decide)]
      · rw [e2, List.filter_cons_of_pos (by rw [hhit]; decide)]
        simp
        omega
      · rw [e3, List.filter_cons_of_neg (by rw [hhit]; decide)]

theorem length_filter_add_length_filter_not (p : α → Bool) (l : List α) :
    (l.filter p).length + (l.filter (fun a => !p a)).length = l.length := by
  induction l with
  | nil => rfl
  | cons a l ih =>
    cases ha : p a with
    | true =>
      rw [List.filter_cons_of_pos ha, List.filter_cons_of_neg (by rw [ha]; decide)]
      simp only [List.length_cons]
      omega
    | false =>
      rw [List.filter_cons_of_neg (by rw [ha]; decide), List.filter_cons_of_pos (by rw [ha]; decide)]
      simp only [List.length_cons]
      omega

theorem countP_mem_comm {l1 l2 : List String} (h1 : l1.Nodup) (h2 : l2.Nodup) :
    l1.countP (fun k => decide (k ∈ l2)) = l2.countP (fun k => decide (k ∈ l1)) := by
  rw [List.countP_eq_length_filter, List.countP_eq_length_filter]
  have e1 : (l1.filter (fun k => decide (k ∈ l2))).toFinset = l1.toFinset ∩ l2.toFinset := by
    ext x
    simp [List.mem_filter]
  have e2 : (l2.filter (fun k => decide (k ∈ l1))).toFinset = l2.toFinset ∩ l1.toFinset := by
    ext x
    simp [List.mem_filter]
  calc (l1.filter (fun k => decide (k ∈ l2))).length
      = (l1.filter (fun k => decide (k ∈ l2))).toFinset.card :=
        (List.toFinset_card_of_nodup (h1.filter _)).symm
    _ = (l1.toFinset ∩ l2.toFinset).card := by rw [e1]
    _ = (l2.toFinset ∩ l1.toFinset).card := by rw [Finset.inter_comm]
    _ = (l2.filter (fun k => decide (k ∈ l1))).toFinset.card := by rw [e2]
    _ = (l2.filter (fun k => decide (k ∈ l1))).length :=
        List.toFinset_card_of_nodup (h2.filter _)

/-- C1.  For every pair of datasets and chosen (nonempty) join key,
`|matches| + |unique1| = |dataset1.rows|`; and when stringified join-key
values identify rows — in particular when they are pairwise distinct
within each dataset — also `|matches| + |unique2| = |dataset2.rows|`. -/
theorem claimC1_join_completeness (data1 data2 : List Row) (joinKey : String)
    (hk : joinKey ≠ "") :
    (comparisonResult data1 data2 joinKey).matchRows.length +
      (comparisonResult data1 data2 joinKey).unique1.length = data1.length ∧
    ((data1.map (keyString joinKey)).Nodup → (data2.map (keyString joinKey)).Nodup →
      (comparisonResult data1 data2 joinKey).matchRows.length +
        (comparisonResult data1 data2 joinKey).unique2.length = data2.length) := by
  obtain ⟨e1, e2, e3⟩ := compare_foldl_spec joinKey data2 data1 ([], [], [])
  have hres : comparisonResult data1 data2 joinKey =
      ⟨(data1.foldl (compareStep joinKey data2) ([], [], [])).1,
       (data1.foldl (compareStep joinKey data2) ([], [], [])).2.1,
       data2.filter (fun row => !(decide (keyString joinKey row ∈
         (data1.foldl (compareStep joinKey data2) ([], [], [])).2.2)))⟩ := by
    rw [comparisonResult, if_neg hk]
  rw [hres]
  simp only [List.nil_append, List.length_nil, Nat.zero_add] at e1 e2 e3
  constructor
  · show (data1.foldl (compareStep joinKey data2) ([], [], [])).1.length +
      (data1.foldl (compareStep joinKey data2) ([], [], [])).2.1.length = data1.length
    rw [e1, e2]
    exact length_filter_add_length_filter_not _ data1
  · intro h1 h2
    show (data1.foldl (compareStep joinKey data2) ([], [], [])).1.length +
      (data2.filter (fun row => !(decide (keyString joinKey row ∈
        (data1.foldl (compareStep joinKey data2) ([], [], [])).2.2)))).length = data2.length
    rw [e1, e3]
    have hmatch : (data1.filter (compareHit joinKey data2)).length =
        (data1.map (keyString joinKey)).countP
          (fun k => decide (k ∈ data2.map (keyString joinKey))) := by
      rw [List.countP_map, ← List.countP_eq_length_filter]
      apply List.countP_congr
      intro r _
      rw [Function.comp_apply, compareHit]
      constructor
      · intro hs
        exact decide_eq_true ((map2Get_isSome_iff data2 joinKey _).mp hs)
      · intro hd
        exact (map2Get_isSome_iff data2 joinKey _).mpr (of_decide_eq_true hd)
    have hmemM : ∀ k, (k ∈ (data1.filter (compareHit joinKey data2)).map (keyString joinKey)) ↔
        (k ∈ data1.map (keyString joinKey) ∧ k ∈ data2.map (keyString joinKey)) := by
      intro k
      constructor
      · intro hm
        rcases List.mem_map.mp hm with ⟨r, hr, rfl⟩
        rcases List.mem_filter.mp hr with ⟨hr1, hrhit⟩
        exact ⟨List.mem_map.mpr ⟨r, hr1, rfl⟩,
          (map2Get_isSome_iff data2 joinKey _).mp hrhit⟩
      · rintro ⟨hk1, hk2⟩
        rcases List.mem_map.mp hk1 with ⟨r, hr, rfl⟩
        refine List.mem_map.mpr ⟨r, List.mem_filter.mpr ⟨hr, ?_⟩, rfl⟩
        exact (map2Get_isSome_iff data2 joinKey _).mpr hk2
    have hcnt2 : (data2.filter (fun row => !(decide (keyString joinKey row ∈
        (data1.filter (compareHit joinKey data2)).map (keyString joinKey))))).length =
        data2.length - (data2.map (keyString joinKey)).countP
          (fun k => decide (k ∈ data1.map (keyString joinKey))) := by
      have hpart := length_filter_add_length_filter_not
        (fun row => decide (keyString joinKey row ∈
          (data1.filter (compareHit joinKey data2)).map (keyString joinKey))) data2
      have hcnt : (data2.filter (fun row => decide (keyString joinKey row ∈
          (data1.filter (compareHit joinKey data2)).map (keyString joinKey)))).length =
          (data2.map (keyString joinKey)).countP
            (fun k => decide (k ∈ data1.map (keyString joinKey))) := by
        rw [List.countP_map, ← List.countP_eq_length_filter]
        apply List.countP_congr
        intro r hr
        rw [Function.comp_apply]
        constructor
        · intro hd
          exact decide_eq_true (((hmemM _).mp (of_decide_eq_true hd)).1)
        · intro hd
          refine decide_eq_true ((hmemM _).mpr ⟨of_decide_eq_true hd, ?_⟩)
          exact List.mem_map.mpr ⟨r, hr, rfl⟩
      omega
    rw [hmatch, hcnt2, countP_mem_comm h1 h2]
    have hle : (data2.map (keyString joinKey)).countP
        (fun k => decide (k ∈ data1.map (keyString joinKey))) ≤ data2.length := by
      have h0 : (data2.map (keyString joinKey)).countP
          (fun k => decide (k ∈ data1.map (keyString joinKey))) ≤
          (data2.map (keyString joinKey)).length := List.countP_le_length _
      simpa using h0
    omega

/-- C1 witness: the theorem applied to two concrete two-row datasets with
distinct keys, joined on `"id"` (one match, one unique row on each
side). -/
theorem claimC1_join_completeness_witness :
    (comparisonResult
        [[("id", Value.num 1), ("x", Value.str "a")], [("id", Value.num 2), ("x", Value.str "b")]]
        [[("id", Value.num 1), ("x", Value.str "c")], [("id", Value.num 3), ("x", Value.str "d")]]
        "id").matchRows.length +
      (comparisonResult
        [[("id", Value.num 1), ("x", Value.str "a")], [("id", Value.num 2), ("x", Value.str "b")]]
        [[("id", Value.num 1), ("x", Value.str "c")], [("id", Value.num 3), ("x", Value.str "d")]]
        "id").unique1.length = 2 ∧
    (comparisonResult
        [[("id", Value.num 1), ("x", Value.str "a")], [("id", Value.num 2), ("x", Value.str "b")]]
        [[("id", Value.num 1), ("x", Value.str "c")], [("id", Value.num 3), ("x", Value.str "d")]]
        "id").matchRows.length +
      (comparisonResult
        [[("id", Value.num 1), ("x", Value.str "a")], [("id", Value.num 2), ("x", Value.str "b")]]
        [[("id", Value.num 1), ("x", Value.str "c")], [("id", Value.num 3), ("x", Value.str "d")]]
        "id").unique2.length = 2 := by
  have h := claimC1_join_completeness
    [[("id", Value.num 1), ("x", Value.str "a")], [("id", Value.num 2), ("x", Value.str "b")]]
    [[("id", Value.num 1), ("x", Value.str "c")], [("id", Value.num 3), ("x", Value.str "d")]]
    "id" (by decide)
  exact ⟨h.1, h.2 (by decide) (by decide)⟩

/-! Claim C8: selection statistics. -/

theorem statsInner_spec (row : Row) (columns : List String) :
    ∀ (colRange : List Nat) (acc : Nat × List ℚ),
      statsInner row columns colRange acc =
        (acc.1 + colRange.length, acc.2 ++ colRange.filterMap (statsCell row columns))
  | [], acc => by simp [statsInner]
  | c :: colRange, acc => by
    rw [statsInner, List.foldl_cons]
    cases hc : statsCell row columns c with
    | some q =>
      have e := statsInner_spec row columns colRange (acc.1 + 1, acc.2 ++ [q])
      rw [statsInner] at e
      simp only [hc]
      rw [e]
      simp only [List.filterMap_cons, hc, List.length_cons, List.append_assoc,
        List.singleton_append, Prod.mk.injEq]
      exact ⟨by omega, trivial⟩

    | none =>
      have e := statsInner_spec row columns colRange (acc.1 + 1, acc.2)
      rw [statsInner] at e
      simp only [hc]
      rw [e]
      simp only [List.filterMap_cons, hc, List.length_cons, Prod.mk.injEq]
      exact ⟨by omega, trivial⟩

theorem statsOuter_spec (rows : List IndexedRow) (columns : List String)
    (colRange : List Nat) :
    ∀ (rowRange : List Nat) (acc : Nat × List ℚ),
      rowRange.foldl (fun acc r =>
        match rows[r]? with
        | none => acc
        | some row => statsInner row.1 columns colRange acc) acc =
      (acc.1 + (rowRange.filter (fun r => (rows[r]?).isSome)).length * colRange.length,
       acc.2 ++ rowRange.flatMap (fun r =>
         match rows[r]? with
         | none => []
         | some ir => colRange.filterMap (statsCell ir.1 columns)))
  | [], acc => by simp
  | r :: rowRange, acc => by
    rw [List.foldl_cons]
    cases hr : rows[r]? with
    | none =>
      have hflt : (r :: rowRange).filter (fun i => (rows[i]?).isSome) =
          rowRange.filter (fun i => (rows[i]?).isSome) :=
        List.filter_cons_of_neg (by simp [hr])
      simp only [hr]
      rw [statsOuter_spec rows columns colRange rowRange acc, hflt]
      simp only [List.flatMap_cons, hr, List.nil_append]
    | some ir =>
      have hflt : (r :: rowRange).filter (fun i => (rows[i]?).isSome) =
          r :: rowRange.filter (fun i => (rows[i]?).isSome) :=
        List.filter_cons_of_pos (by simp [hr])
      simp only [hr]
      rw [statsInner_spec ir.1 columns colRange acc]
      rw [statsOuter_spec rows columns colRange rowRange _, hflt]
      simp only [List.flatMap_cons, hr, List.length_cons, List.append_assoc, Prod.mk.injEq]
      exact ⟨by ring, trivial⟩

/-- The multiset of numerically coercible cells inside the selection
rectangle, projected through the visible sequence: for each row index of
the normalised row range that lands inside the visible rows, the
coercible cells among the normalised column range, in row-major order. -/
def selectionValues (rows : List IndexedRow) (columns : List String)
    (selStart selEnd : SelectionPoint) : List ℚ :=
  (statsRange selStart.rowIndex selEnd.rowIndex).flatMap (fun r =>
    match rows[r]? with
    | none => []
    | some ir => (statsRange selStart.colIndex selEnd.colIndex).filterMap
        (statsCell ir.1 columns))

theorem stats_eq (selStart selEnd : SelectionPoint) (rows : List IndexedRow)
    (columns : List String) :
    stats selStart selEnd rows columns =
      (if (selectionValues rows columns selStart selEnd).isEmpty then
        ⟨((statsRange selStart.rowIndex selEnd.rowIndex).filter
            (fun r => (rows[r]?).isSome)).length *
          (statsRange selStart.colIndex selEnd.colIndex).length,
         0, none, none, none, none, none⟩
      else
        ⟨((statsRange selStart.rowIndex selEnd.rowIndex).filter
            (fun r => (rows[r]?).isSome)).length *
          (statsRange selStart.colIndex selEnd.colIndex).length,
         (selectionValues rows columns selStart selEnd).length,
         some (d3sum (selectionValues rows columns selStart selEnd)),
         d3mean (selectionValues rows columns selStart selEnd),
         d3median (selectionValues rows columns selStart selEnd),
         d3min (selectionValues rows columns selStart selEnd),
         d3max (selectionValues rows columns selStart selEnd)⟩) := by
  rw [stats, statsOuter]
  rw [statsOuter_spec rows columns (statsRange selStart.colIndex selEnd.colIndex)
      (statsRange selStart.rowIndex selEnd.rowIndex) (0, [])]
  simp only [List.nil_append, Nat.zero_add]
  rfl

/-- C8.  When the normalised selection rectangle's rows lie inside the
visible sequence, `cellCount` is the full area of the rectangle,
`numericCount` is the size of the numeric multiset of the selected cells
(the cells that coerce to a number), and whenever that multiset is
nonempty the reported sum, mean, median, min and max are the d3 aggregates
of that multiset (mean being sum over count, median the sorted-midpoint
rule). -/
theorem claimC8_selection_stats (p1 p2 : SelectionPoint) (rows : List IndexedRow)
    (columns : List String)
    (h : Nat.max p1.rowIndex p2.rowIndex < rows.length) :
    (stats p1 p2 rows columns).cellCount =
      (Nat.max p1.rowIndex p2.rowIndex + 1 - Nat.min p1.rowIndex p2.rowIndex) *
      (Nat.max p1.colIndex p2.colIndex + 1 - Nat.min p1.colIndex p2.colIndex) ∧
    (stats p1 p2 rows columns).numericCount = (selectionValues rows columns p1 p2).length ∧
    (selectionValues rows columns p1 p2 ≠ [] →
      (stats p1 p2 rows columns).sum = some (d3sum (selectionValues rows columns p1 p2)) ∧
      (stats p1 p2 rows columns).avg =
        some (qdiv (d3sum (selectionValues rows columns p1 p2))
          ((selectionValues rows columns p1 p2).length : ℚ)) ∧
      (stats p1 p2 rows columns).median = d3median (selectionValues rows columns p1 p2) ∧
      (stats p1 p2 rows columns).min = d3min (selectionValues rows columns p1 p2) ∧
      (stats p1 p2 rows columns).max = d3max (selectionValues rows columns p1 p2)) := by
  have hfull : (statsRange p1.rowIndex p2.rowIndex).filter
      (fun r => (rows[r]?).isSome) = statsRange p1.rowIndex p2.rowIndex := by
    rw [List.filter_eq_self]
    intro r hr
    rw [statsRange, List.mem_range'] at hr
    obtain ⟨i, hi, rfl⟩ := hr
    have hlt : Nat.min p1.rowIndex p2.rowIndex + 1 * i < rows.length := by omega
    have hlt2 : Nat.min p1.rowIndex p2.rowIndex + i < rows.length := by omega
    simp [List.getElem?_eq_getElem hlt2]
  have hlen : (statsRange p1.rowIndex p2.rowIndex).length =
      Nat.max p1.rowIndex p2.rowIndex + 1 - Nat.min p1.rowIndex p2.rowIndex := by
    rw [statsRange, List.length_range']
  have hlenc : (statsRange p1.colIndex p2.colIndex).length =
      Nat.max p1.colIndex p2.colIndex + 1 - Nat.min p1.colIndex p2.colIndex := by
    rw [statsRange, List.length_range']
  rw [stats_eq]
  by_cases hV : (selectionValues rows columns p1 p2).isEmpty
  · rw [if_pos hV]
    have hVnil : selectionValues rows columns p1 p2 = [] := List.isEmpty_iff.mp hV
    refine ⟨?_, ?_, ?_⟩
    · show ((statsRange p1.rowIndex p2.rowIndex).filter
          (fun r => (rows[r]?).isSome)).length *
        (statsRange p1.colIndex p2.colIndex).length = _
      rw [hfull, hlen, hlenc]
    · show (0 : Nat) = (selectionValues rows columns p1 p2).length
      rw [hVnil]
      rfl
    · intro hne
      exact absurd hVnil hne
  · rw [if_neg hV]
    refine ⟨?_, rfl, ?_⟩
    · show ((statsRange p1.rowIndex p2.rowIndex).filter
          (fun r => (rows[r]?).isSome)).length *
        (statsRange p1.colIndex p2.colIndex).length = _
      rw [hfull, hlen, hlenc]
    · intro hne
      refine ⟨rfl, ?_, rfl, rfl, rfl⟩
      show d3mean (selectionValues rows columns p1 p2) = _
      rw [d3mean, if_neg hV]

/-- C8 witness: the theorem applied to the spec's example, a selection
covering the 2×3 numeric block `[[1,2,3],[4,5,6]]`: cellCount 6,
numericCount 6, sum 21, mean 3.5, median 3.5, min 1, max 6. -/
theorem claimC8_selection_stats_witness :
    (stats ⟨0, 0⟩ ⟨1, 2⟩
        [([("c1", Value.num 1), ("c2", Value.num 2), ("c3", Value.num 3)], 0),
         ([("c1", Value.num 4), ("c2", Value.num 5), ("c3", Value.num 6)], 1)]
        ["c1", "c2", "c3"]).cellCount = 6 ∧
    (stats ⟨0, 0⟩ ⟨1, 2⟩
        [([("c1", Value.num 1), ("c2", Value.num 2), ("c3", Value.num 3)], 0),
         ([("c1", Value.num 4), ("c2", Value.num 5), ("c3", Value.num 6)], 1)]
        ["c1", "c2", "c3"]) =
      ⟨6, 6, some 21, some (mkRat 7 2), some (mkRat 7 2), some 1, some 6⟩ := by
  have h := claimC8_selection_stats ⟨0, 0⟩ ⟨1, 2⟩
    [([("c1", Value.num 1), ("c2", Value.num 2), ("c3", Value.num 3)], 0),
     ([("c1", Value.num 4), ("c2", Value.num 5), ("c3", Value.num 6)], 1)]
    ["c1", "c2", "c3"] (by decide)
  exact ⟨h.1, by decide⟩

/-! Claim C9: the per-row diff (`selectedRowComparison`). -/

/-- The diff reorder comparator's order is the implication order on
`isMatch`: `a` may precede `b` except when `a` matches and `b` does not. -/
theorem diffLe_eq (a b : DiffEntry) :
    diffLe a b = (!a.isMatch || b.isMatch) := by
  cases ha : a.isMatch <;> cases hb : b.isMatch <;>
    simp [diffLe, diffCompare, ha, hb] <;> decide

/-- A list pairwise sorted for the implication order of a boolean
attribute is its non-satisfying block followed by its satisfying block. -/
theorem bool_sorted_partition (m : α → Bool) :
    ∀ l : List α, l.Pairwise (fun a b => m a = true → m b = true) →
      l = l.filter (fun x => !m x) ++ l.filter m := by
  intro l
  induction l with
  | nil => intro _; rfl
  | cons a l ih =>
    intro h
    rcases List.pairwise_cons.mp h with ⟨ha, htail⟩
    cases hma : m a with
    | false =>
      rw [List.filter_cons_of_pos (by simp [hma]),
        List.filter_cons_of_neg (by simp [hma]), List.cons_append]
      exact congrArg (List.cons a) (ih htail)
    | true =>
      have hall : ∀ b ∈ l, m b = true := fun b hb => ha b hb hma
      rw [List.filter_cons_of_neg (by simp [hma]),
        List.filter_cons_of_pos hma]
      have h1 : l.filter (fun x => !m x) = [] :=
        List.filter_eq_nil_iff.mpr (fun b hb => by simp [hall b hb])
      have h2 : l.filter m = l := List.filter_eq_self.mpr hall
      rw [h1, h2, List.nil_append]

/-- Stable merge sort by the implication order of a boolean attribute is
exactly the stable partition: the elements lacking the attribute first,
then the ones with it, each block in input order. -/
theorem mergeSort_bool_partition (m : α → Bool) (l : List α) :
    l.mergeSort (fun a b => !m a || m b) =
      l.filter (fun x => !m x) ++ l.filter m := by
  have trans : ∀ (a b c : α), (!m a || m b) = true → (!m b || m c) = true →
      (!m a || m c) = true := by
    intro a b c
    cases m a <;> cases m b <;> cases m c <;> simp
  have total : ∀ (a b : α), ((!m a || m b) || (!m b || m a)) = true := by
    intro a b
    cases m a <;> cases m b <;> simp
  have hpair : (l.mergeSort (fun a b => !m a || m b)).Pairwise
      (fun a b => m a = true → m b = true) := by
    refine (List.sorted_mergeSort trans total l).imp ?_
    intro a b hab ha
    cases hb : m b
    · rw [ha, hb] at hab
      simp at hab
    · rfl
  have hA : l.filter (fun x => !m x) <+ l.mergeSort (fun a b => !m a || m b) := by
    refine List.sublist_mergeSort trans total ?_ (List.filter_sublist l)
    refine List.pairwise_of_forall_mem_list ?_
    intro a ha b hb
    have ha2 : m a = false := by
      have h0 := List.of_mem_filter ha
      simpa using h0
    show (!m a || m b) = true
    rw [ha2]
    rfl
  have hB : l.filter m <+ l.mergeSort (fun a b => !m a || m b) := by
    refine List.sublist_mergeSort trans total ?_ (List.filter_sublist l)
    refine List.pairwise_of_forall_mem_list ?_
    intro a ha b hb
    have hb2 : m b = true := List.of_mem_filter hb
    show (!m a || m b) = true
    rw [hb2]
    cases m a <;> rfl
  have hcntA : (l.mergeSort (fun a b => !m a || m b)).countP (fun x => !m x) =
      l.countP (fun x => !m x) :=
    (List.mergeSort_perm l _).countP_eq _
  have hcntB : (l.mergeSort (fun a b => !m a || m b)).countP m =
      l.countP m :=
    (List.mergeSort_perm l _).countP_eq _
  have hAA : (l.filter (fun x => !m x)).filter (fun x => !m x) =
      l.filter (fun x => !m x) :=
    List.filter_eq_self.mpr (fun a ha => (List.mem_filter.mp ha).2)
  have hBB : (l.filter m).filter m = l.filter m :=
    List.filter_eq_self.mpr (fun a ha => (List.mem_filter.mp ha).2)
  have heqA : l.filter (fun x => !m x) =
      (l.mergeSort (fun a b => !m a || m b)).filter (fun x => !m x) := by
    have hsub := hA.filter (fun x => !m x)
    rw [hAA] at hsub
    refine hsub.eq_of_length ?_
    rw [← List.countP_eq_length_filter, ← List.countP_eq_length_filter, hcntA]
  have heqB : l.filter m =
      (l.mergeSort (fun a b => !m a || m b)).filter m := by
    have hsub := hB.filter m
    rw [hBB] at hsub
    refine hsub.eq_of_length ?_
    rw [← List.countP_eq_length_filter, ← List.countP_eq_length_filter, hcntB]
  have hpart := bool_sorted_partition m _ hpair
  rw [hpart, ← heqA, ← heqB]

/-- C9.  The per-row diff classifies every column of the union schema as
the spec says: the join key is a trivial match; a non-key column with two
present numeric values matches iff they are numerically equal and
otherwise reports the difference `value2 - value1`; two present values
not both numeric match iff their stringified forms agree, with no numeric
diff; exactly one present value is a mismatch with no diff; two absent
values are a match.  The output is the stable partition of the diff
records of the deduplicated union columns: every mismatch before every
match, each block in schema order. -/
theorem claimC9_row_diff (selectedRow : Row) (cols1 cols2 : List String)
    (joinKey : String) :
    (selectedRowComparison selectedRow cols1 cols2 joinKey =
      ((jsSetDedup (cols1 ++ cols2)).map (diffEntry selectedRow joinKey)).filter
          (fun e => ! e.isMatch) ++
        ((jsSetDedup (cols1 ++ cols2)).map (diffEntry selectedRow joinKey)).filter
          (fun e => e.isMatch)) ∧
    diffEntry selectedRow joinKey joinKey =
      ⟨joinKey, rowLookup selectedRow joinKey, rowLookup selectedRow joinKey,
        true, none⟩ ∧
    (∀ col, col ≠ joinKey → ∀ q1 q2,
      rowLookup selectedRow ("(File 1) " ++ col) = some (Value.num q1) →
      rowLookup selectedRow ("(File 2) " ++ col) = some (Value.num q2) →
      diffEntry selectedRow joinKey col =
        if q1 = q2 then
          ⟨col, some (Value.num q1), some (Value.num q2), true, none⟩
        else
          ⟨col, some (Value.num q1), some (Value.num q2), false,
            some (qsub q2 q1)⟩) ∧
    (∀ col, col ≠ joinKey → ∀ v1 v2,
      rowLookup selectedRow ("(File 1) " ++ col) = some v1 →
      rowLookup selectedRow ("(File 2) " ++ col) = some v2 →
      (∀ q1 q2, ¬(v1 = Value.num q1 ∧ v2 = Value.num q2)) →
      diffEntry selectedRow joinKey col =
        ⟨col, some v1, some v2,
          decide (jsStringOfValue v1 = jsStringOfValue v2), none⟩) ∧
    (∀ col, col ≠ joinKey →
      rowLookup selectedRow ("(File 1) " ++ col) = none →
      rowLookup selectedRow ("(File 2) " ++ col) = none →
      diffEntry selectedRow joinKey col = ⟨col, none, none, true, none⟩) ∧
    (∀ col, col ≠ joinKey → ∀ v1,
      rowLookup selectedRow ("(File 1) " ++ col) = some v1 →
      rowLookup selectedRow ("(File 2) " ++ col) = none →
      diffEntry selectedRow joinKey col = ⟨col, some v1, none, false, none⟩) ∧
    (∀ col, col ≠ joinKey → ∀ v2,
      rowLookup selectedRow ("(File 1) " ++ col) = none →
      rowLookup selectedRow ("(File 2) " ++ col) = some v2 →
      diffEntry selectedRow joinKey col = ⟨col, none, some v2, false, none⟩) := by
  refine ⟨?_, ?_, ?_, ?_, ?_, ?_, ?_⟩
  · rw [selectedRowComparison, jsSortList_eq]
    have hle : diffLe = fun a b => !a.isMatch || b.isMatch :=
      funext fun a => funext fun b => diffLe_eq a b
    rw [hle]
    exact mergeSort_bool_partition DiffEntry.isMatch _
  · rw [diffEntry, if_pos rfl]
  · intro col hcol q1 q2 h1 h2
    simp only [diffEntry, h1, h2]
    rw [if_neg hcol]
  · intro col hcol v1 v2 h1 h2 hnn
    simp only [diffEntry, h1, h2]
    rw [if_neg hcol]
    cases v1 with
    | num q1 =>
      cases v2 with
      | num q2 => exact absurd ⟨rfl, rfl⟩ (hnn q1 q2)
      | str s2 => rfl
      | null => rfl
    | str s1 => cases v2 <;> rfl
    | null => cases v2 <;> rfl
  · intro col hcol h1 h2
    simp only [diffEntry, h1, h2]
    rw [if_neg hcol]
  · intro col hcol v1 h1 h2
    simp only [diffEntry, h1, h2]
    rw [if_neg hcol]
  · intro col hcol v2 h1 h2
    simp only [diffEntry, h1, h2]
    rw [if_neg hcol]

/-- C9 witness: the theorem applied to the spec's example.  Diffing the
merged row of matching `{id:1,x:"a"}` and `{id:1,x:"b"}` on key `id`
reports column `x` as a mismatch with no numeric diff before the trivially
matching join key, and the classification case for two present non-numeric
values yields exactly that record. -/
theorem claimC9_row_diff_witness :
    selectedRowComparison
        [("id", Value.num 1), ("(File 1) x", Value.str "a"),
         ("(File 2) x", Value.str "b")]
        ["id", "x"] ["id", "x"] "id" =
      [⟨"x", some (Value.str "a"), some (Value.str "b"), false, none⟩,
       ⟨"id", some (Value.num 1), some (Value.num 1), true, none⟩] ∧
    diffEntry
        [("id", Value.num 1), ("(File 1) x", Value.str "a"),
         ("(File 2) x", Value.str "b")] "id" "x" =
      ⟨"x", some (Value.str "a"), some (Value.str "b"), false, none⟩ := by
  have h := claimC9_row_diff
    [("id", Value.num 1), ("(File 1) x", Value.str "a"),
     ("(File 2) x", Value.str "b")]
    ["id", "x"] ["id", "x"] "id"
  refine ⟨h.1.trans (by decide), ?_⟩
  have h4 := h.2.2.2.1 "x" (by decide) (Value.str "a") (Value.str "b")
    (by decide) (by decide) (fun q1 q2 hq => Value.noConfusion hq.1)
  rw [h4]
  decide
